import Mathlib

/-!
Shallow embedding of the Signal Scoring Engine of the Binance trade screener
(`src/app.py`).  Python floats are modelled as rationals (`ℚ`); the `math.nan`
sentinel for "indicator value undefined" is modelled as `Option ℚ` with `none`
standing for NaN.  Each definition mirrors one Python function of the source,
keeping its name and its computation step for step.
-/

namespace BinanceScreener

/-- Config constant `THRESH_WINDOW = 100` (rolling bars for threshold estimate). -/
def THRESH_WINDOW : Nat := 100

/-- Config constant `AUTO_THRESHOLD = True` (mimic the Pine auto threshold). -/
def AUTO_THRESHOLD : Bool := true

/-- Config constant `MAX_SYMBOLS_OUTPUT = 25` (cap per side in Telegram). -/
def MAX_SYMBOLS_OUTPUT : Nat := 25

/-- One candle as produced by `get_klines`: open time (ms) plus o/h/l/c. -/
structure Kline where
  t : Int
  «open» : ℚ
  high : ℚ
  low : ℚ
  close : ℚ
  deriving DecidableEq

/-- Tail loop of `ema`: `out.append(v * k + out[-1] * (1 - k))`. -/
def emaGo (k : ℚ) (prev : ℚ) : List ℚ → List ℚ
  | [] => []
  | v :: vs =>
    let x := v * k + prev * (1 - k)
    x :: emaGo k x vs

/-- Python `ema(values, period)`: empty (or nonpositive period) input gives `[]`;
otherwise the seed is `values[0]` and `k = 2 / (period + 1)`. -/
def ema (values : List ℚ) (period : Nat) : List ℚ :=
  match values, period with
  | [], _ => []
  | _, 0 => []
  | v :: vs, p + 1 => v :: emaGo (2 / ((p : ℚ) + 2)) v vs

/-- Consecutive differences `closes[i] - closes[i-1]`, `i = 1 …`. -/
def deltas : List ℚ → List ℚ
  | a :: b :: rest => (b - a) :: deltas (b :: rest)
  | _ => []

/-- Computes `100 - 100 / (1 + rs)` with `rs = avg_gain / avg_loss`, and `rs`
treated as infinite when `avg_loss == 0` (so the RSI value is 100). -/
def rsiVal (avg_gain avg_loss : ℚ) : ℚ :=
  if avg_loss ≠ 0 then 100 - 100 / (1 + avg_gain / avg_loss) else 100

/-- Wilder smoothing loop of `rsi` over the remaining deltas. -/
def rsiGo (period : Nat) (avg_gain avg_loss : ℚ) : List ℚ → List ℚ
  | [] => []
  | ch :: rest =>
    let g := (avg_gain * ((period : ℚ) - 1) + max ch 0) / period
    let l := (avg_loss * ((period : ℚ) - 1) + max (-ch) 0) / period
    rsiVal g l :: rsiGo period g l rest

/-- Python `rsi(closes, period)`: NaN-padded Wilder RSI, mirroring the source
line by line (including the final `while` padding loop, which only ever
appends and never truncates). -/
def rsi (closes : List ℚ) (period : Nat) : List (Option ℚ) :=
  if closes.length < period + 1 then List.replicate closes.length none
  else
    let ds := deltas closes
    let avg_gain := ((ds.take period).map (fun ch => max ch 0)).sum / period
    let avg_loss := ((ds.take period).map (fun ch => max (-ch) 0)).sum / period
    let rsis := List.replicate (period + 1) (none : Option ℚ)
      ++ [some (rsiVal avg_gain avg_loss)]
      ++ (rsiGo period avg_gain avg_loss (ds.drop (period + 1))).map some
    rsis ++ List.replicate (closes.length - rsis.length) none

/-- Loop of the true-range computation: for `i ≥ 1`,
`max(high[i]-low[i], |high[i]-close[i-1]|, |low[i]-close[i-1]|)`. -/
def trAux (prevClose : ℚ) : List ℚ → List ℚ → List ℚ → List ℚ
  | h :: hs, l :: ls, c :: cs =>
    max (h - l) (max |h - prevClose| |l - prevClose|) :: trAux c hs ls cs
  | _, _, _ => []

/-- The true ranges `trs[1:]` of `atr` (index 0 of the Python `trs` is NaN
and is represented implicitly by this list starting at index 1). -/
def trueRanges (highs lows closes : List ℚ) : List ℚ :=
  match highs, lows, closes with
  | _ :: hs, _ :: ls, c :: cs => trAux c hs ls cs
  | _, _, _ => []

/-- Wilder RMA loop of `atr`: `out[i] = out[i-1] - alpha*out[i-1] + alpha*trs[i]`. -/
def wilderGo (alpha : ℚ) (prev : ℚ) : List ℚ → List ℚ
  | [] => []
  | tr :: rest =>
    let x := prev - alpha * prev + alpha * tr
    x :: wilderGo alpha x rest

/-- Python `atr(highs, lows, closes, period)`: mismatched lengths give an all-NaN
list aligned with `closes`; too-short input gives an all-NaN list; otherwise
the seed at index `period` is the mean of the first `period` true ranges and
the rest is the Wilder recursion with `alpha = 1/period`. -/
def atr (highs lows closes : List ℚ) (period : Nat) : List (Option ℚ) :=
  if highs.length ≠ lows.length ∨ highs.length ≠ closes.length then
    List.replicate closes.length none
  else if closes.length ≤ period then
    List.replicate closes.length none
  else
    let trs := trueRanges highs lows closes
    let first := (trs.take period).sum / period
    List.replicate period (none : Option ℚ) ++ [some first]
      ++ (wilderGo (1 / (period : ℚ)) first (trs.drop period)).map some

/-- Error-aware view of `atr`, making the run-time exception behaviour of the
Python function explicit: the only raising path is the division by zero when
`period = 0` reaches `sum(...)/period`; every other input — the
mismatched-length early return included — produces a normal value. -/
def atrE (highs lows closes : List ℚ) (period : Nat) : Except String (List (Option ℚ)) :=
  if highs.length ≠ lows.length ∨ highs.length ≠ closes.length then
    Except.ok (List.replicate closes.length none)
  else if (trueRanges highs lows closes).length + 1 ≤ period then
    Except.ok (List.replicate closes.length none)
  else if period = 0 then
    Except.error ("ZeroDivisionError")
  else
    Except.ok (atr highs lows closes period)

/-- Python `bar_delta_percent(o, c)`: `(close - open) / (open * 100)`, and 0 for a
zero open price. -/
def bar_delta_percent (o c : ℚ) : ℚ :=
  if o = 0 then 0 else (c - o) / (o * 100)

/-- Python `auto_threshold_from_series(bdp, window)`: `2 * mean(abs(x))` over the
last `window` entries (or all of them, if fewer); 0 on an empty series. -/
def auto_threshold_from_series (bdp : List ℚ) (window : Nat) : ℚ :=
  if bdp = [] then 0
  else
    let sample := if bdp.length > window then bdp.drop (bdp.length - window) else bdp
    2 * ((sample.map (fun x => |x|)).sum / sample.length)

/-- The bar delta percent of one candle, `bar_delta_percent(k["open"], k["close"])`. -/
def bdpOf (k : Kline) : ℚ := bar_delta_percent k.«open» k.close

/-- Python `detect_fvg_lux_from_klines(klines)`: with fewer than 3 candles, no gap of
either kind; otherwise the threshold is computed on `klines[:-1]` and the
pattern test uses the three most recent candles.  The bullish tuple is
`(bottom, top)` and the bearish tuple is `(top, bottom)`, as in the source. -/
def detect_fvg_lux_from_klines (klines : List Kline) :
    Option (ℚ × ℚ) × Option (ℚ × ℚ) :=
  match klines.reverse with
  | curr :: prev1 :: prev2 :: _ =>
    let thr := if AUTO_THRESHOLD then
        auto_threshold_from_series (klines.dropLast.map bdpOf) THRESH_WINDOW
      else 0
    let prev1_bdp := bar_delta_percent prev1.«open» prev1.close
    let bull := if curr.low > prev2.high ∧ prev1.close > prev2.high ∧ prev1_bdp > thr then
        some (min curr.low prev2.high, max curr.low prev2.high)
      else none
    let bear := if curr.high < prev2.low ∧ prev1.close < prev2.low ∧ -prev1_bdp > thr then
        some (max curr.high prev2.low, min curr.high prev2.low)
      else none
    (bull, bear)
  | _ => (none, none)

/-- The five results of `smart_tp_sl_entry`, in source order. -/
structure TradeParams where
  entry : ℚ
  sl : ℚ
  tp1 : ℚ
  tp2 : ℚ
  rr2 : ℚ
  deriving DecidableEq

/-- Python `smart_tp_sl_entry(side, gap, price, atr_val)`: gap midpoint entry, ATR
cushion of `0.2 * atr_val` (0 when the ATR value is NaN), risk floored at
`1e-12`, targets at 1.5R and 2.5R.  Any side other than `"long"` takes the
short branch, as in the source. -/
def smart_tp_sl_entry (side : String) (gap : ℚ × ℚ) (price : ℚ)
    (atr_val : Option ℚ) : TradeParams :=
  let lo := if gap.1 < gap.2 then gap.1 else gap.2
  let hi := if gap.1 < gap.2 then gap.2 else gap.1
  let entry := (lo + hi) / 2
  let cushion : ℚ := match atr_val with
    | some a => 0.2 * a
    | none => 0
  if side = "long" then
    let sl := lo - cushion
    let risk := max (entry - sl) 1e-12
    let tp1 := entry + 1.5 * risk
    let tp2 := entry + 2.5 * risk
    ⟨entry, sl, tp1, tp2, (tp2 - entry) / risk⟩
  else
    let sl := hi + cushion
    let risk := max (sl - entry) 1e-12
    let tp1 := entry - 1.5 * risk
    let tp2 := entry - 2.5 * risk
    ⟨entry, sl, tp1, tp2, (entry - tp2) / risk⟩

/-- Trend-alignment contribution of `confidence_score`:
`+0.35` when price is on the right side of the EMA200 value, else `-0.25`. -/
def trendTerm (side : String) (price ema200_val : ℚ) : ℚ :=
  if (if side = "long" then ema200_val < price else price < ema200_val) then 0.35 else -0.25

/-- RSI contribution of `confidence_score`: skipped (0) when the RSI value is
NaN; otherwise `min(|rsi-50|/50, 1) * 0.25`, minus `0.15` on wrong-side RSI. -/
def rsiTerm (side : String) (rsi_val : Option ℚ) : ℚ :=
  match rsi_val with
  | none => 0
  | some r =>
    min (|r - 50| / 50) 1 * 0.25
      - (if (side = "long" ∧ r < 50) ∨ (side = "short" ∧ 50 < r) then 0.15 else 0)

/-- Gap-size contribution of `confidence_score`: `min(gap_pct * 50, 0.3)` with
`gap_pct = (hi - lo) / price` for positive price, else 0. -/
def gapTerm (price : ℚ) (gap : ℚ × ℚ) : ℚ :=
  let lo := if gap.1 < gap.2 then gap.1 else gap.2
  let hi := if gap.1 < gap.2 then gap.2 else gap.1
  let gap_pct := if 0 < price then (hi - lo) / price else 0
  min (gap_pct * 50) 0.3

/-- ATR contribution of `confidence_score`: `min(max(atr_pct * 20, -0.1), 0.2)`
with `atr_pct = atr_val / price` for positive price and finite ATR, else 0. -/
def atrTerm (price : ℚ) (atr_val : Option ℚ) : ℚ :=
  let atr_pct : ℚ := match atr_val with
    | some a => if 0 < price then a / price else 0
    | none => 0
  min (max (atr_pct * 20) (-0.1)) 0.2

/-- Python `confidence_score(side, price, ema200_val, rsi_val, atr_val, gap)`: the
four additive terms in source order, then `(score + 1) / 2` clamped to [0,1]. -/
def confidence_score (side : String) (price ema200_val : ℚ) (rsi_val : Option ℚ)
    (atr_val : Option ℚ) (gap : ℚ × ℚ) : ℚ :=
  let score := 0 + trendTerm side price ema200_val + rsiTerm side rsi_val
    + gapTerm price gap + atrTerm price atr_val
  max 0 (min 1 ((score + 1) / 2))

/-- The scorer with the momentum (RSI) block skipped entirely — the reading the spec
prescribes of an undefined momentum value (no bonus, no penalty). -/
def confidence_score_skip_momentum (side : String) (price ema200_val : ℚ)
    (atr_val : Option ℚ) (gap : ℚ × ℚ) : ℚ :=
  let score := 0 + trendTerm side price ema200_val
    + gapTerm price gap + atrTerm price atr_val
  max 0 (min 1 ((score + 1) / 2))

/-- The fields of an emitted signal dict that the final ranking reads:
the sort key is the pair `(confidence, rr)`. -/
structure Signal where
  symbol : String
  confidence : ℚ
  rr : ℚ
  deriving DecidableEq

/-- The comparison realised by `list.sort(key=lambda x: (x["confidence"],
x["rr"]), reverse=True)`: `a` may precede `b` iff `(a.confidence, a.rr)` is
lexicographically at least `(b.confidence, b.rr)`. -/
def signalKeyGE (a b : Signal) : Bool :=
  decide (b.confidence < a.confidence ∨ (a.confidence = b.confidence ∧ b.rr ≤ a.rr))

/-- The in-place stable sort of the signal list of one side (descending by
`(confidence, rr)`), modelled as a stable merge sort. -/
def sortSignals (signals : List Signal) : List Signal :=
  signals.mergeSort signalKeyGE

/-- The list of one side as stored into the JSON run log (`run_payload`): the
sorted list, with no truncation applied. -/
def runLogSide (signals : List Signal) : List Signal := sortSignals signals

/-- The list of one side as rendered into the Telegram message (`fmt_side`):
the sorted list truncated to `MAX_SYMBOLS_OUTPUT` entries. -/
def messageSide (signals : List Signal) : List Signal :=
  (sortSignals signals).take MAX_SYMBOLS_OUTPUT

/-!  ## Theorems  -/

/-- C1 (amended): a sequence of fewer than 3 candles yields no bullish and no
bearish gap; otherwise, with `prev2, prev1, curr` the three most recent
candles and `thr` the computed threshold, the detector returns a bullish gap
exactly when `curr.low > prev2.high`, `prev1.close > prev2.high` and
`barDeltaPercent(prev1) > thr`, with bounds
`(min(curr.low, prev2.high), max(curr.low, prev2.high))`, and a bearish gap
exactly when `curr.high < prev2.low`, `prev1.close < prev2.low` and
`-barDeltaPercent(prev1) > thr`, with the bearish tuple ordered as
`(max(curr.high, prev2.low), min(curr.high, prev2.low))`, i.e. `(top, bottom)`;
both results may be produced in one call. -/
theorem detect_fvg_spec :
    (∀ klines : List Kline, klines.length < 3 →
      detect_fvg_lux_from_klines klines = (none, none)) ∧
    (∀ (ks : List Kline) (prev2 prev1 curr : Kline),
      detect_fvg_lux_from_klines (ks ++ [prev2, prev1, curr]) =
        (let thr := auto_threshold_from_series ((ks ++ [prev2, prev1]).map bdpOf)
            THRESH_WINDOW
         ((if curr.low > prev2.high ∧ prev1.close > prev2.high ∧ bdpOf prev1 > thr then
            some (min curr.low prev2.high, max curr.low prev2.high)
          else none),
          (if curr.high < prev2.low ∧ prev1.close < prev2.low ∧ -bdpOf prev1 > thr then
            some (max curr.high prev2.low, min curr.high prev2.low)
          else none)))) := by
  constructor
  · intro klines h
    match klines with
    | [] => rfl
    | [a] => rfl
    | [a, b] => rfl
    | a :: b :: c :: tl => simp at h; omega
  · intro ks prev2 prev1 curr
    have h1 : (ks ++ [prev2, prev1, curr]).reverse
        = curr :: prev1 :: prev2 :: ks.reverse := by simp
    have h2 : (ks ++ [prev2, prev1, curr]).dropLast = ks ++ [prev2, prev1] := by
      rw [show ks ++ [prev2, prev1, curr] = (ks ++ [prev2, prev1]) ++ [curr] by simp,
        List.dropLast_concat]
    unfold detect_fvg_lux_from_klines
    rw [h1]
    dsimp only
    rw [h2]
    simp only [AUTO_THRESHOLD, if_true, bdpOf]

/-- C1 counterexample: on this concrete candle list a bearish gap fires
(curr.high = 80 < prev2.low = 100, prev1.close = 90 < 100, and
-barDeltaPercent(prev1) = 1/1000 exceeds the threshold 1/1500), and the
returned bearish tuple is `(100, 80)` — `(max, min)`, not the claimed
`(min, max) = (80, 100)`. -/
theorem detect_fvg_bear_bounds_counterexample :
    (detect_fvg_lux_from_klines
      [⟨0, 100, 100, 100, 100⟩, ⟨0, 100, 100, 100, 100⟩,
       ⟨0, 100, 100, 89, 90⟩, ⟨0, 75, 80, 70, 78⟩]).2 = some (100, 80) ∧
    (detect_fvg_lux_from_klines
      [⟨0, 100, 100, 100, 100⟩, ⟨0, 100, 100, 100, 100⟩,
       ⟨0, 100, 100, 89, 90⟩, ⟨0, 75, 80, 70, 78⟩]).2
      ≠ some (min (80 : ℚ) 100, max (80 : ℚ) 100) := by
  constructor <;>
    norm_num [detect_fvg_lux_from_klines, auto_threshold_from_series, bar_delta_percent,
      bdpOf, AUTO_THRESHOLD, THRESH_WINDOW, List.cons_ne_nil, Prod.ext_iff,
      abs, max_def, min_def]

/-- C1 witness: the theorem applied at an empty candle list and at a concrete
4-candle list on which the bearish branch fires. -/
theorem detect_fvg_spec_witness :
    ([] : List Kline).length < 3 ∧
    detect_fvg_lux_from_klines ([] : List Kline) = (none, none) ∧
    detect_fvg_lux_from_klines
      ([(⟨0, 100, 100, 100, 100⟩ : Kline)] ++
        [⟨0, 100, 100, 100, 100⟩, ⟨0, 100, 100, 89, 90⟩, ⟨0, 75, 80, 70, 78⟩])
      = (none, some (100, 80)) :=
  ⟨by norm_num, detect_fvg_spec.1 [] (by norm_num),
    (detect_fvg_spec.2 [⟨0, 100, 100, 100, 100⟩] ⟨0, 100, 100, 100, 100⟩
        ⟨0, 100, 100, 89, 90⟩ ⟨0, 75, 80, 70, 78⟩).trans (by
      norm_num [auto_threshold_from_series, bar_delta_percent, bdpOf, THRESH_WINDOW,
        List.cons_ne_nil, Prod.ext_iff, abs, max_def, min_def])⟩

/-- C2: for a candle sequence of length at least 1 and window `W ≥ 1`, the
adaptive threshold is `2 ×` the mean of `|barDeltaPercent|` over the last
`min(W, n-1)` candles among all candles except the most recent one, and 0
when that sample is empty. -/
theorem auto_threshold_spec (klines : List Kline) (W : Nat)
    (hn : 1 ≤ klines.length) (hW : 1 ≤ W) :
    let bdps := klines.dropLast.map bdpOf
    let sample := bdps.drop (bdps.length - W)
    sample.length = min W (klines.length - 1) ∧
    auto_threshold_from_series bdps W =
      (if sample.length = 0 then 0
       else 2 * ((sample.map (fun x => |x|)).sum / sample.length)) := by
  intro bdps sample
  have hb : bdps.length = klines.length - 1 := by
    simp [bdps, List.length_dropLast]
  have hs : sample.length = bdps.length - (bdps.length - W) := by
    simp [sample]
  constructor
  · rw [hs, hb]; omega
  · by_cases h0 : bdps = []
    · have hsl : sample.length = 0 := by simp [sample, h0]
      rw [if_pos hsl]
      simp [auto_threshold_from_series, h0]
    · have hlen : 0 < bdps.length := List.length_pos.mpr h0
      have hns : ¬ sample.length = 0 := by rw [hs]; omega
      rw [if_neg hns]
      have hsd : (if bdps.length > W then bdps.drop (bdps.length - W) else bdps)
          = sample := by
        by_cases hgt : bdps.length > W
        · rw [if_pos hgt]
        · rw [if_neg hgt]
          have hz : bdps.length - W = 0 := by omega
          simp [sample, hz]
      simp only [auto_threshold_from_series, if_neg h0, hsd]

/-- C2 witness: the theorem applied at a concrete 3-candle list with `W = 2`;
the threshold evaluates to `2 × ((1/10000 + 1/20000) / 2) = 3/20000`. -/
theorem auto_threshold_spec_witness :
    1 ≤ ([⟨0, 100, 100, 100, 101⟩, ⟨0, 200, 200, 200, 201⟩,
          ⟨0, 300, 300, 300, 301⟩] : List Kline).length ∧
    auto_threshold_from_series
      (([⟨0, 100, 100, 100, 101⟩, ⟨0, 200, 200, 200, 201⟩,
         ⟨0, 300, 300, 300, 301⟩] : List Kline).dropLast.map bdpOf) 2 = 3 / 20000 :=
  ⟨by norm_num,
    ((auto_threshold_spec [⟨0, 100, 100, 100, 101⟩, ⟨0, 200, 200, 200, 201⟩,
        ⟨0, 300, 300, 300, 301⟩] 2 (by norm_num) (by norm_num)).2).trans (by
      norm_num [bdpOf, bar_delta_percent, abs, max_def, min_def])⟩

/-- C3 (code bug): `rsi` on a closes list of exactly `period + 1` elements
returns `period + 2` entries — one more than its input — violating the 1:1
length alignment the spec requires; here `rsi([1, 2], 1)` has 3 entries for a
2-entry input. -/
theorem rsi_alignment_bug :
    rsi [1, 2] 1 = [none, none, some 100] ∧
    (rsi [1, 2] 1).length = 3 ∧ ([(1 : ℚ), 2]).length = 2 := by
  refine ⟨?_, ?_, by norm_num⟩ <;>
    norm_num [rsi, deltas, rsiVal, rsiGo, List.replicate, abs, max_def, min_def]
/-- Reduction of `smart_tp_sl_entry` on the long side for an already ordered
gap tuple. -/
theorem smart_long_eq (gapLow gapHigh price : ℚ) (atr_val : Option ℚ)
    (hg : gapLow < gapHigh) :
    smart_tp_sl_entry ("long") (gapLow, gapHigh) price atr_val =
      (let cushion : ℚ := match atr_val with
        | some a => 0.2 * a
        | none => 0
       let entry := (gapLow + gapHigh) / 2
       let sl := gapLow - cushion
       let risk := max (entry - sl) 1e-12
       ⟨entry, sl, entry + 1.5 * risk, entry + 2.5 * risk,
        (entry + 2.5 * risk - entry) / risk⟩) := by
  simp [smart_tp_sl_entry, hg]

theorem smart_short_eq (gapLow gapHigh price : ℚ) (atr_val : Option ℚ)
    (hg : gapLow < gapHigh) :
    smart_tp_sl_entry ("short") (gapLow, gapHigh) price atr_val =
      (let cushion : ℚ := match atr_val with
        | some a => 0.2 * a
        | none => 0
       let entry := (gapLow + gapHigh) / 2
       let sl := gapHigh + cushion
       let risk := max (sl - entry) 1e-12
       ⟨entry, sl, entry - 1.5 * risk, entry - 2.5 * risk,
        (entry - (entry - 2.5 * risk)) / risk⟩) := by
  simp [smart_tp_sl_entry, hg]


theorem tp_sl_long_arith (gapLow gapHigh cushion : ℚ) (hg : gapLow < gapHigh)
    (hcu : 0 ≤ cushion) :
    gapLow - cushion < (gapLow + gapHigh) / 2 ∧
    (gapLow + gapHigh) / 2 < (gapLow + gapHigh) / 2
      + 1.5 * max ((gapLow + gapHigh) / 2 - (gapLow - cushion)) 1e-12 ∧
    (gapLow + gapHigh) / 2 + 1.5 * max ((gapLow + gapHigh) / 2 - (gapLow - cushion)) 1e-12
      < (gapLow + gapHigh) / 2
        + 2.5 * max ((gapLow + gapHigh) / 2 - (gapLow - cushion)) 1e-12 ∧
    0 ≤ ((gapLow + gapHigh) / 2
        + 2.5 * max ((gapLow + gapHigh) / 2 - (gapLow - cushion)) 1e-12
        - (gapLow + gapHigh) / 2)
      / max ((gapLow + gapHigh) / 2 - (gapLow - cushion)) 1e-12 := by
  set risk := max ((gapLow + gapHigh) / 2 - (gapLow - cushion)) 1e-12 with hrk
  have hrisk : (0 : ℚ) < risk := lt_of_lt_of_le (by norm_num) (le_max_right _ _)
  refine ⟨by linarith, by linarith, by linarith, ?_⟩
  rw [show (gapLow + gapHigh) / 2 + 2.5 * risk - (gapLow + gapHigh) / 2
      = 2.5 * risk by ring]
  exact div_nonneg (by linarith) (le_of_lt hrisk)

theorem tp_sl_short_arith (gapLow gapHigh cushion : ℚ) (hg : gapLow < gapHigh)
    (hcu : 0 ≤ cushion) :
    (gapLow + gapHigh) / 2
        - 2.5 * max (gapHigh + cushion - (gapLow + gapHigh) / 2) 1e-12
      < (gapLow + gapHigh) / 2
        - 1.5 * max (gapHigh + cushion - (gapLow + gapHigh) / 2) 1e-12 ∧
    (gapLow + gapHigh) / 2 - 1.5 * max (gapHigh + cushion - (gapLow + gapHigh) / 2) 1e-12
      < (gapLow + gapHigh) / 2 ∧
    (gapLow + gapHigh) / 2 < gapHigh + cushion ∧
    0 ≤ ((gapLow + gapHigh) / 2
        - ((gapLow + gapHigh) / 2
          - 2.5 * max (gapHigh + cushion - (gapLow + gapHigh) / 2) 1e-12))
      / max (gapHigh + cushion - (gapLow + gapHigh) / 2) 1e-12 := by
  set risk := max (gapHigh + cushion - (gapLow + gapHigh) / 2) 1e-12 with hrk
  have hrisk : (0 : ℚ) < risk := lt_of_lt_of_le (by norm_num) (le_max_right _ _)
  refine ⟨by linarith, by linarith, by linarith, ?_⟩
  rw [show (gapLow + gapHigh) / 2 - ((gapLow + gapHigh) / 2 - 2.5 * risk)
      = 2.5 * risk by ring]
  exact div_nonneg (by linarith) (le_of_lt hrisk)

/-- C4: for a gap with `gapLow < gapHigh`, a finite ATR value and side long,
the calculator returns `entry = (gapLow + gapHigh)/2`,
`stopLoss = gapLow - 0.2*ATR`, `takeProfit1 = entry + 1.5*risk`,
`takeProfit2 = entry + 2.5*risk` with `risk = max(entry - stopLoss, 1e-12)`,
and `riskReward = (takeProfit2 - entry)/risk`, which equals `2.5` whenever
the risk was not floored. -/
theorem smart_tp_sl_entry_long_spec (gapLow gapHigh price a : ℚ)
    (hg : gapLow < gapHigh) :
    (let r := smart_tp_sl_entry ("long") (gapLow, gapHigh) price (some a)
     let entry := (gapLow + gapHigh) / 2
     let sl := gapLow - 0.2 * a
     let risk := max (entry - sl) 1e-12
     r.entry = entry ∧ r.sl = sl ∧ r.tp1 = entry + 1.5 * risk ∧
       r.tp2 = entry + 2.5 * risk ∧ r.rr2 = (r.tp2 - r.entry) / risk ∧
       (1e-12 ≤ entry - sl → r.rr2 = 2.5)) := by
  have hrisk : (0 : ℚ) < max ((gapLow + gapHigh) / 2 - (gapLow - 0.2 * a)) 1e-12 :=
    lt_of_lt_of_le (by norm_num) (le_max_right _ _)
  simp only [smart_long_eq gapLow gapHigh price (some a) hg]
  refine ⟨trivial, trivial, trivial, trivial, trivial, fun hfloor => ?_⟩
  rw [show (gapLow + gapHigh) / 2
        + 2.5 * max ((gapLow + gapHigh) / 2 - (gapLow - 0.2 * a)) 1e-12
        - (gapLow + gapHigh) / 2
      = 2.5 * max ((gapLow + gapHigh) / 2 - (gapLow - 0.2 * a)) 1e-12 by ring,
    mul_div_assoc, div_self (ne_of_gt hrisk), mul_one]

/-- C4 witness: the theorem applied at gap `(100, 110)`, side long, ATR `5`;
the outputs are entry 105, stopLoss 99, takeProfit1 114, takeProfit2 120 and
riskReward 2.5. -/
theorem smart_tp_sl_entry_long_spec_witness :
    (100 : ℚ) < 110 ∧
    smart_tp_sl_entry ("long") (100, 110) 0 (some 5)
      = ⟨105, 99, 114, 120, 2.5⟩ ∧
    (let r := smart_tp_sl_entry ("long") (100, 110) 0 (some 5)
     let entry := ((100 : ℚ) + 110) / 2
     let sl := (100 : ℚ) - 0.2 * 5
     let risk := max (entry - sl) 1e-12
     r.entry = entry ∧ r.sl = sl ∧ r.tp1 = entry + 1.5 * risk ∧
       r.tp2 = entry + 2.5 * risk ∧ r.rr2 = (r.tp2 - r.entry) / risk ∧
       (1e-12 ≤ entry - sl → r.rr2 = 2.5)) :=
  ⟨by norm_num, by norm_num [smart_tp_sl_entry],
    smart_tp_sl_entry_long_spec 100 110 0 5 (by norm_num)⟩

/-- C5: for a gap with `gapLow < gapHigh` and an ATR value that is undefined
or nonnegative, the outputs are strictly ordered consistently with the side
(long: stopLoss < entry < takeProfit1 < takeProfit2; short: takeProfit2 <
takeProfit1 < entry < stopLoss) and `riskReward ≥ 0`. -/
theorem smart_tp_sl_entry_ordering (gapLow gapHigh price : ℚ) (atr_val : Option ℚ)
    (hg : gapLow < gapHigh) (ha : ∀ x, atr_val = some x → 0 ≤ x) :
    (let r := smart_tp_sl_entry ("long") (gapLow, gapHigh) price atr_val
     r.sl < r.entry ∧ r.entry < r.tp1 ∧ r.tp1 < r.tp2 ∧ 0 ≤ r.rr2) ∧
    (let r := smart_tp_sl_entry ("short") (gapLow, gapHigh) price atr_val
     r.tp2 < r.tp1 ∧ r.tp1 < r.entry ∧ r.entry < r.sl ∧ 0 ≤ r.rr2) := by
  rcases atr_val with _ | a
  · constructor
    · simp only [smart_long_eq gapLow gapHigh price none hg]
      exact tp_sl_long_arith gapLow gapHigh 0 hg le_rfl
    · simp only [smart_short_eq gapLow gapHigh price none hg]
      exact tp_sl_short_arith gapLow gapHigh 0 hg le_rfl
  · have hcu : (0 : ℚ) ≤ 0.2 * a := mul_nonneg (by norm_num) (ha a rfl)
    constructor
    · simp only [smart_long_eq gapLow gapHigh price (some a) hg]
      exact tp_sl_long_arith gapLow gapHigh (0.2 * a) hg hcu
    · simp only [smart_short_eq gapLow gapHigh price (some a) hg]
      exact tp_sl_short_arith gapLow gapHigh (0.2 * a) hg hcu

/-- C5 witness: the theorem applied at gap `(100, 110)` with an undefined
(NaN) ATR value. -/
theorem smart_tp_sl_entry_ordering_witness :
    (100 : ℚ) < 110 ∧
    ((let r := smart_tp_sl_entry ("long") ((100 : ℚ), 110) 0 none
      r.sl < r.entry ∧ r.entry < r.tp1 ∧ r.tp1 < r.tp2 ∧ 0 ≤ r.rr2) ∧
     (let r := smart_tp_sl_entry ("short") ((100 : ℚ), 110) 0 none
      r.tp2 < r.tp1 ∧ r.tp1 < r.entry ∧ r.entry < r.sl ∧ 0 ≤ r.rr2)) :=
  ⟨by norm_num,
    smart_tp_sl_entry_ordering 100 110 0 none (by norm_num)
      (fun x h => by cases h)⟩

/-- The gap term of the scorer only depends on the gap through its size. -/
theorem gapTerm_eq (price : ℚ) (g : ℚ × ℚ) (h : g.1 ≤ g.2) :
    gapTerm price g = min ((if 0 < price then (g.2 - g.1) / price else 0) * 50) 0.3 := by
  rcases eq_or_lt_of_le h with h | h
  · simp [gapTerm, ← h]
  · simp [gapTerm, h]

/-- The final normalisation and clamp of the scorer is monotone in the raw
score. -/
theorem clamp01_mono (x y : ℚ) (h : x ≤ y) :
    max 0 (min 1 ((x + 1) / 2)) ≤ max 0 (min 1 ((y + 1) / 2)) :=
  max_le_max le_rfl (min_le_min le_rfl (by linarith))

/-- C6: for any side, positive price, finite trend and volatility values and
defined-or-undefined momentum value, the confidence score lies in `[0, 1]`;
holding everything else fixed it is monotone non-decreasing in the gap size
`gapHigh - gapLow`, and constant once the gap-size fraction term reaches its
`0.3` cap. -/
theorem confidence_score_bounds_mono (side : String) (price ema200_val : ℚ)
    (rsi_val : Option ℚ) (atrv : ℚ) (g1 g2 : ℚ × ℚ) (hp : 0 < price) :
    (0 ≤ confidence_score side price ema200_val rsi_val (some atrv) g1 ∧
      confidence_score side price ema200_val rsi_val (some atrv) g1 ≤ 1) ∧
    (g1.1 ≤ g1.2 → g2.1 ≤ g2.2 → g1.2 - g1.1 ≤ g2.2 - g2.1 →
      confidence_score side price ema200_val rsi_val (some atrv) g1 ≤
        confidence_score side price ema200_val rsi_val (some atrv) g2) ∧
    (g1.1 ≤ g1.2 → g2.1 ≤ g2.2 → 0.3 ≤ (g1.2 - g1.1) / price * 50 →
      0.3 ≤ (g2.2 - g2.1) / price * 50 →
      confidence_score side price ema200_val rsi_val (some atrv) g1 =
        confidence_score side price ema200_val rsi_val (some atrv) g2) := by
  refine ⟨⟨le_max_left _ _, max_le (by norm_num) (min_le_left _ _)⟩, ?_, ?_⟩
  · intro h1 h2 h12
    simp only [confidence_score]
    apply clamp01_mono
    have hg : gapTerm price g1 ≤ gapTerm price g2 := by
      rw [gapTerm_eq price g1 h1, gapTerm_eq price g2 h2, if_pos hp, if_pos hp]
      refine min_le_min ?_ le_rfl
      gcongr
    linarith
  · intro h1 h2 hc1 hc2
    simp only [confidence_score]
    rw [gapTerm_eq price g1 h1, gapTerm_eq price g2 h2, if_pos hp, if_pos hp,
      min_eq_right hc1, min_eq_right hc2]

/-- C6 witness: the theorem applied at side long, price 100, trend 90,
undefined momentum, ATR 5, and concrete gaps `(100, 101)` and `(100, 102)`. -/
theorem confidence_score_bounds_mono_witness :
    (0 : ℚ) < 100 ∧
    ((0 ≤ confidence_score ("long") 100 90 none (some 5) ((100 : ℚ), 101) ∧
      confidence_score ("long") 100 90 none (some 5) ((100 : ℚ), 101) ≤ 1) ∧
     (((100 : ℚ), 101).1 ≤ ((100 : ℚ), 101).2 → ((100 : ℚ), 102).1 ≤ ((100 : ℚ), 102).2 →
       ((100 : ℚ), 101).2 - ((100 : ℚ), 101).1 ≤ ((100 : ℚ), 102).2 - ((100 : ℚ), 102).1 →
       confidence_score ("long") 100 90 none (some 5) ((100 : ℚ), 101) ≤
         confidence_score ("long") 100 90 none (some 5) ((100 : ℚ), 102)) ∧
     (((100 : ℚ), 101).1 ≤ ((100 : ℚ), 101).2 → ((100 : ℚ), 102).1 ≤ ((100 : ℚ), 102).2 →
       0.3 ≤ (((100 : ℚ), 101).2 - ((100 : ℚ), 101).1) / 100 * 50 →
       0.3 ≤ (((100 : ℚ), 102).2 - ((100 : ℚ), 102).1) / 100 * 50 →
       confidence_score ("long") 100 90 none (some 5) ((100 : ℚ), 101) =
         confidence_score ("long") 100 90 none (some 5) ((100 : ℚ), 102))) :=
  ⟨by norm_num,
    confidence_score_bounds_mono ("long") 100 90 none 5 (100, 101) (100, 102)
      (by norm_num)⟩

/-- The descending `(confidence, rr)` comparison is transitive. -/
theorem signalKeyGE_trans (a b c : Signal) (h1 : signalKeyGE a b)
    (h2 : signalKeyGE b c) : signalKeyGE a c := by
  simp only [signalKeyGE, decide_eq_true_eq] at h1 h2 ⊢
  rcases h1 with h1 | ⟨h1e, h1r⟩ <;> rcases h2 with h2 | ⟨h2e, h2r⟩
  · exact Or.inl (lt_trans h2 h1)
  · exact Or.inl (h2e ▸ h1)
  · exact Or.inl (lt_of_lt_of_le h2 h1e.ge)
  · exact Or.inr ⟨h1e.trans h2e, h2r.trans h1r⟩

/-- The descending `(confidence, rr)` comparison is total. -/
theorem signalKeyGE_total (a b : Signal) : signalKeyGE a b || signalKeyGE b a := by
  simp only [signalKeyGE, Bool.or_eq_true, decide_eq_true_eq]
  rcases lt_trichotomy a.confidence b.confidence with h | h | h
  · exact Or.inr (Or.inl h)
  · rcases le_total a.rr b.rr with hr | hr
    · exact Or.inr (Or.inr ⟨h.symm, hr⟩)
    · exact Or.inl (Or.inr ⟨h, hr⟩)
  · exact Or.inl (Or.inl h)

/-- C7 (amended): the sorted candidate lists are non-increasing in the
lexicographic `(confidence, riskReward)` order and are permutations of the
collected candidates; the message output is truncated to at most
`MAX_SYMBOLS_OUTPUT` entries per side, while the run-log output keeps every
candidate (it is not truncated). -/
theorem screener_sort_truncate (signals : List Signal) :
    List.Pairwise (fun a b => b.confidence < a.confidence ∨
        (a.confidence = b.confidence ∧ b.rr ≤ a.rr)) (sortSignals signals) ∧
    (sortSignals signals).Perm signals ∧
    (messageSide signals).length ≤ MAX_SYMBOLS_OUTPUT ∧
    (runLogSide signals).length = signals.length := by
  refine ⟨?_, List.mergeSort_perm signals _, ?_, ?_⟩
  · have h := @List.sorted_mergeSort Signal signalKeyGE signalKeyGE_trans
      signalKeyGE_total signals
    exact h.imp (fun hab => of_decide_eq_true hab)
  · exact List.length_take_le MAX_SYMBOLS_OUTPUT (sortSignals signals)
  · simp [runLogSide, sortSignals, (List.mergeSort_perm signals signalKeyGE).length_eq]

/-- C7 counterexample: with 26 collected candidates on one side, the run-log
output list still has 26 entries — more than the configured maximum of 25 —
because only the message rendering truncates. -/
theorem screener_truncation_counterexample :
    MAX_SYMBOLS_OUTPUT <
      (runLogSide (List.replicate 26 ⟨("BTCUSDT"), 1, 5 / 2⟩)).length := by
  have h := (List.mergeSort_perm (List.replicate 26
    (⟨("BTCUSDT"), 1, 5 / 2⟩ : Signal)) signalKeyGE).length_eq
  simp only [List.length_replicate] at h
  simp [runLogSide, sortSignals, h, MAX_SYMBOLS_OUTPUT]

/-- C8 (amended): `atr` given mismatched-length input arrays does not raise:
it returns a NaN-filled list aligned with the closes input; and for every
`period ≥ 1` it raises no error on any input (the only raising path of the
function is the division by zero at `period = 0`). -/
theorem atr_mismatch_no_raise (highs lows closes : List ℚ) (period : Nat) :
    (1 ≤ period → ∃ v, atrE highs lows closes period = Except.ok v) ∧
    ((highs.length ≠ lows.length ∨ highs.length ≠ closes.length) →
      atrE highs lows closes period
        = Except.ok (List.replicate closes.length none)) := by
  constructor
  · intro hp
    unfold atrE
    split_ifs with h1 h2 h3
    · exact ⟨_, rfl⟩
    · exact ⟨_, rfl⟩
    · omega
    · exact ⟨_, rfl⟩
  · intro hmm
    unfold atrE
    rw [if_pos hmm]

/-- C8 counterexample: on concretely mismatched inputs (`highs` has one entry,
`lows` none) the indicator returns a normal NaN-filled value instead of
raising. -/
theorem atr_mismatch_counterexample :
    atrE [1] [] [2] 14 = Except.ok [none] ∧
    ([(1 : ℚ)]).length ≠ ([] : List ℚ).length := by
  constructor
  · norm_num [atrE, trueRanges, atr]
  · norm_num

/-- C8 witness: the theorem applied at the mismatched input
`highs = [1], lows = [], closes = [2]` with `period = 14`. -/
theorem atr_mismatch_no_raise_witness :
    (1 ≤ 14 → ∃ v, atrE [1] [] [2] 14 = Except.ok v) ∧
    atrE [(1 : ℚ)] [] [2] 14 = Except.ok (List.replicate ([(2 : ℚ)]).length none) :=
  ⟨(atr_mismatch_no_raise [1] [] [2] 14).1,
    (atr_mismatch_no_raise [1] [] [2] 14).2 (by norm_num)⟩

/-- C9: an undefined (NaN) momentum value makes the scorer skip the momentum
block entirely — the score equals the score with the momentum term removed —
and it is not equivalent to treating the momentum as zero, as the concrete
disequality shows. -/
theorem confidence_nan_momentum_spec :
    (∀ (side : String) (price ema200_val : ℚ) (atr_val : Option ℚ) (gap : ℚ × ℚ),
      confidence_score side price ema200_val none atr_val gap =
        confidence_score_skip_momentum side price ema200_val atr_val gap) ∧
    confidence_score ("long") 100 90 (some 0) none ((1 : ℚ), 2) ≠
      confidence_score ("long") 100 90 none none ((1 : ℚ), 2) := by
  constructor
  · intro side price e a g
    simp only [confidence_score, confidence_score_skip_momentum, rsiTerm, add_zero]
  · norm_num [confidence_score, confidence_score_skip_momentum, trendTerm, rsiTerm,
      gapTerm, atrTerm, abs, max_def, min_def]

/-- Every true range produced by the loop is nonnegative: it is a maximum
over terms that include two absolute values. -/
theorem trAux_nonneg (hs : List ℚ) : ∀ (prevClose : ℚ) (ls cs : List ℚ),
    ∀ t ∈ trAux prevClose hs ls cs, 0 ≤ t := by
  induction hs with
  | nil => intro p ls cs t ht; simp [trAux] at ht
  | cons h hs ih =>
    intro p ls cs t ht
    rcases ls with _ | ⟨l, ls⟩
    · simp [trAux] at ht
    rcases cs with _ | ⟨c, cs⟩
    · simp [trAux] at ht
    simp only [trAux, List.mem_cons] at ht
    rcases ht with rfl | ht
    · exact le_trans (abs_nonneg (h - p)) (le_max_of_le_right (le_max_left _ _))
    · exact ih c ls cs t ht

/-- Every entry of `trueRanges` is nonnegative. -/
theorem trueRanges_nonneg (highs lows closes : List ℚ) :
    ∀ t ∈ trueRanges highs lows closes, 0 ≤ t := by
  rcases highs with _ | ⟨h, hs⟩
  · simp [trueRanges]
  rcases lows with _ | ⟨l, ls⟩
  · simp [trueRanges]
  rcases closes with _ | ⟨c, cs⟩
  · simp [trueRanges]
  show ∀ t ∈ trAux c hs ls cs, 0 ≤ t
  exact trAux_nonneg hs c ls cs

/-- The Wilder recursion preserves nonnegativity when `0 ≤ alpha ≤ 1` and the
true ranges are nonnegative. -/
theorem wilderGo_nonneg (alpha : ℚ) (h0 : 0 ≤ alpha) (h1 : alpha ≤ 1)
    (trs : List ℚ) : ∀ (prev : ℚ), 0 ≤ prev → (∀ t ∈ trs, 0 ≤ t) →
    ∀ y ∈ wilderGo alpha prev trs, 0 ≤ y := by
  induction trs with
  | nil => intro prev hp ht y hy; simp [wilderGo] at hy
  | cons tr trs ih =>
    intro prev hp ht y hy
    have htr : 0 ≤ tr := ht tr (List.mem_cons_self _ _)
    have hx : 0 ≤ prev - alpha * prev + alpha * tr := by
      have h2 : 0 ≤ prev * (1 - alpha) := mul_nonneg hp (by linarith)
      have h3 : 0 ≤ alpha * tr := mul_nonneg h0 htr
      have h4 : prev - alpha * prev + alpha * tr
          = prev * (1 - alpha) + alpha * tr := by ring
      rw [h4]
      exact add_nonneg h2 h3
    simp only [wilderGo, List.mem_cons] at hy
    rcases hy with rfl | hy
    · exact hx
    · exact ih _ hx (fun t htm => ht t (List.mem_cons_of_mem _ htm)) y hy

/-- C10: for `period ≥ 1` and equal-length inputs — with no assumption that
`high ≥ low` anywhere — every defined (non-NaN) entry of the ATR output is
nonnegative. -/
theorem atr_nonneg (highs lows closes : List ℚ) (period : Nat) (hp : 1 ≤ period)
    (h1 : highs.length = lows.length) (h2 : highs.length = closes.length) :
    ∀ x ∈ atr highs lows closes period, ∀ q, x = some q → 0 ≤ q := by
  intro x hx q hq
  rw [hq] at hx
  have htr := trueRanges_nonneg highs lows closes
  simp only [atr] at hx
  rw [if_neg (by push_neg; exact ⟨h1, h2⟩)] at hx
  by_cases hle : closes.length ≤ period
  · rw [if_pos hle] at hx
    have := List.eq_of_mem_replicate hx
    simp at this
  · rw [if_neg hle] at hx
    have hperiod : (0 : ℚ) < (period : ℚ) := by
      have : (1 : ℚ) ≤ (period : ℚ) := by exact_mod_cast hp
      linarith
    have hfirst : 0 ≤ ((trueRanges highs lows closes).take period).sum / period := by
      refine div_nonneg (List.sum_nonneg ?_) (le_of_lt hperiod)
      exact fun t ht => htr t (List.take_subset _ _ ht)
    simp only [List.mem_append, List.mem_singleton, List.mem_map] at hx
    rcases hx with (hx | hx) | ⟨y, hy, hxy⟩
    · have := List.eq_of_mem_replicate hx
      simp at this
    · rw [Option.some_inj.mp hx]
      exact hfirst
    · have halpha0 : (0 : ℚ) ≤ 1 / (period : ℚ) := by positivity
      have halpha1 : 1 / (period : ℚ) ≤ 1 := by
        apply div_le_one_of_le₀
        · exact_mod_cast hp
        · exact le_of_lt hperiod
      have hy0 := wilderGo_nonneg (1 / (period : ℚ)) halpha0 halpha1
        ((trueRanges highs lows closes).drop period)
        (((trueRanges highs lows closes).take period).sum / period) hfirst
        (fun t ht => htr t (List.drop_subset _ _ ht)) y hy
      rw [← Option.some_inj.mp hxy]
      exact hy0

/-- C10 witness: the theorem applied at `highs = [10, 12]`, `lows = [5, 6]`,
`closes = [7, 11]`, `period = 1`, where the ATR output is `[NaN, 6]`. -/
theorem atr_nonneg_witness :
    1 ≤ 1 ∧ ([(10 : ℚ), 12]).length = ([(5 : ℚ), 6]).length ∧
    ([(10 : ℚ), 12]).length = ([(7 : ℚ), 11]).length ∧
    atr [10, 12] [5, 6] [7, 11] 1 = [none, some 6] ∧
    (∀ x ∈ atr [(10 : ℚ), 12] [5, 6] [7, 11] 1, ∀ q, x = some q → 0 ≤ q) :=
  ⟨le_rfl, by norm_num, by norm_num,
    by norm_num [atr, trueRanges, trAux, wilderGo, List.replicate, abs, max_def, min_def],
    atr_nonneg [10, 12] [5, 6] [7, 11] 1 le_rfl (by norm_num) (by norm_num)⟩

end BinanceScreener
